import Mathlib

/-!
Shallow embedding of the thinktax event pipeline core.

Numbers: JavaScript numeric values are modelled as rationals, so the arithmetic
of the cost formulas is exact.  Timestamps are modelled as epoch milliseconds
(integers); luxon DateTime comparison operators coerce to epoch milliseconds,
and setZone preserves the underlying instant, so instant comparison is faithful.
String union enums of TypeScript (UsageSource, UsageProvider) are modelled as
strings.  Nullable fields become Option.  The open meta bag is modelled by the
single key the costing engine reads (billing).
-/

/-- Token counts of a usage event (src/core/events.ts, UsageTokens).
The source field names are in, out, cache_write, cache_read; the first two are
renamed tin, tout because in is a Lean keyword. -/
structure UsageTokens where
  tin : ℚ
  tout : ℚ
  cache_write : ℚ
  cache_read : ℚ
  deriving DecidableEq, Repr

/-- Cost provenance tag (src/core/events.ts UsageCost.mode, plus the
subscription mode assigned by the costing engine). -/
inductive CostMode where
  | reported
  | estimated
  | mixed
  | unknown
  | subscription
  deriving DecidableEq, Repr

/-- Cost fields of a usage event (src/core/events.ts, UsageCost). -/
structure UsageCost where
  reported_usd : Option ℚ
  estimated_usd : Option ℚ
  final_usd : Option ℚ
  mode : CostMode
  deriving DecidableEq, Repr

/-- Project attribution of a usage event (src/core/events.ts, UsageProject). -/
structure UsageProject where
  id : Option String
  name : Option String
  root : Option String
  deriving DecidableEq, Repr

/-- Open per-source metadata bag, restricted to the key read by the costing
engine (event.meta.billing). -/
structure UsageMeta where
  billing : Option String
  deriving DecidableEq, Repr

/-- Canonical usage event (src/core/events.ts, UsageEvent).  ts is the epoch
millisecond instant denoted by the stored ISO timestamp string. -/
structure UsageEvent where
  id : String
  ts : Int
  source : String
  provider : String
  model : Option String
  tokens : UsageTokens
  cost : UsageCost
  project : UsageProject
  meta : UsageMeta
  deriving DecidableEq, Repr

/-- Function emptyCost of src/core/events.ts. -/
def emptyCost : UsageCost :=
  { reported_usd := none, estimated_usd := none, final_usd := none, mode := CostMode.unknown }

/-- Function emptyTokens of src/core/events.ts. -/
def emptyTokens : UsageTokens :=
  { tin := 0, tout := 0, cache_write := 0, cache_read := 0 }

/-- Function emptyProject of src/core/events.ts. -/
def emptyProject : UsageProject :=
  { id := none, name := none, root := none }

/-- Pricing entry (src/core/pricing.ts, PricingModel). -/
structure PricingModel where
  provider : String
  model : String
  input_per_million : ℚ
  output_per_million : ℚ
  cache_write_per_million : Option ℚ
  cache_read_per_million : Option ℚ
  deriving DecidableEq, Repr

/-- Pricing table (src/core/pricing.ts, PricingTable); only the models list
matters to the resolver. -/
structure PricingTable where
  models : List PricingModel
  deriving DecidableEq, Repr

/-- Check that needle occurs at the head of haystack (helper for the JS
String.prototype.includes semantics used by findPricing). -/
def charsMatchAt : List Char → List Char → Bool
  | _, [] => true
  | [], _ :: _ => false
  | c :: cs, d :: ds => c == d && charsMatchAt cs ds

/-- Check that needle occurs somewhere inside haystack. -/
def charsInclude : List Char → List Char → Bool
  | [], needle => needle.isEmpty
  | c :: cs, needle => charsMatchAt (c :: cs) needle || charsInclude cs needle

/-- JS s.includes(sub): substring containment. -/
def strIncludes (s sub : String) : Bool :=
  charsInclude s.data sub.data

/-- Function findPricing of src/core/pricing.ts.  The JS guard (!model) is
true for null and for the empty string. -/
def findPricing (table : PricingTable) (provider : String) (model : Option String) :
    Option PricingModel :=
  match model with
  | none => none
  | some m =>
    if m = "" then none
    else
      match table.models.find? (fun entry => entry.provider == provider && entry.model == m) with
      | some direct => some direct
      | none =>
        table.models.find? (fun entry => entry.provider == provider && strIncludes m entry.model)

/-- Function estimateCostUsd of src/core/pricing.ts. -/
def estimateCostUsd (pricing : PricingModel) (tokens : UsageTokens) : ℚ :=
  let input := tokens.tin / 1000000 * pricing.input_per_million
  let output := tokens.tout / 1000000 * pricing.output_per_million
  let cacheWrite :=
    match pricing.cache_write_per_million with
    | some rate => tokens.cache_write / 1000000 * rate
    | none => 0
  let cacheRead :=
    match pricing.cache_read_per_million with
    | some rate => tokens.cache_read / 1000000 * rate
    | none => 0
  input + output + cacheWrite + cacheRead

/-- Costing options (core/cost.ts, CostingOptions). -/
structure CostingOptions where
  includeUnknown : Bool := false
  deriving DecidableEq, Repr

/-- Function applyCosting of core/cost.ts, the variant with the subscription
branch: the estimate is computed unconditionally whenever pricing resolves,
then the branches are: subscription, reported, unknown, estimated. -/
def applyCosting (event : UsageEvent) (pricing : PricingTable) (options : CostingOptions) :
    UsageEvent :=
  let pricingModel := findPricing pricing event.provider event.model
  let estimated : Option ℚ :=
    match pricingModel with
    | some pm => some (estimateCostUsd pm event.tokens)
    | none => event.cost.estimated_usd
  if event.meta.billing == some "subscription" then
    { event with cost := { event.cost with
        estimated_usd := estimated, final_usd := some 0, mode := CostMode.subscription } }
  else
    match event.cost.reported_usd with
    | some r =>
      { event with cost := { event.cost with
          estimated_usd := estimated, final_usd := some r,
          mode := if estimated.isSome then CostMode.mixed else CostMode.reported } }
    | none =>
      match pricingModel with
      | none =>
        { event with cost := { event.cost with
            estimated_usd := estimated,
            final_usd := if options.includeUnknown then estimated else none,
            mode := CostMode.unknown } }
      | some _ =>
        { event with cost := { event.cost with
            estimated_usd := estimated, final_usd := estimated,
            mode := CostMode.estimated } }

/-- Function applyCosting of core/cost.ts, the variant without the subscription
branch: reported cost is checked first, and the estimate is computed only in
the estimated branch. -/
def applyCostingLegacy (event : UsageEvent) (pricing : PricingTable)
    (options : CostingOptions) : UsageEvent :=
  match event.cost.reported_usd with
  | some r =>
    { event with cost := { event.cost with
        final_usd := some r,
        mode := if event.cost.estimated_usd.isSome then CostMode.mixed
                else CostMode.reported } }
  | none =>
    match findPricing pricing event.provider event.model with
    | none =>
      { event with cost := { event.cost with
          mode := CostMode.unknown,
          final_usd := if options.includeUnknown then event.cost.estimated_usd else none } }
    | some pm =>
      let estimate := estimateCostUsd pm event.tokens
      { event with cost := { event.cost with
          estimated_usd := some estimate, final_usd := some estimate,
          mode := CostMode.estimated } }

/-- Mutable accumulator of the aggregation engine (core/aggregate.ts, Totals). -/
@[ext]
structure Totals where
  count : ℕ
  tokens_in : ℚ
  tokens_out : ℚ
  cache_write : ℚ
  cache_read : ℚ
  reported_usd : ℚ
  estimated_usd : ℚ
  final_usd : ℚ
  unknown_cost : ℕ
  deriving DecidableEq, Repr

/-- Function emptyTotals of core/aggregate.ts. -/
def emptyTotals : Totals :=
  { count := 0, tokens_in := 0, tokens_out := 0, cache_write := 0, cache_read := 0,
    reported_usd := 0, estimated_usd := 0, final_usd := 0, unknown_cost := 0 }

/-- Function addTotals of core/aggregate.ts: fold one event into an
accumulator, coercing null costs to zero. -/
def addTotals (target : Totals) (event : UsageEvent) : Totals :=
  { count := target.count + 1,
    tokens_in := target.tokens_in + event.tokens.tin,
    tokens_out := target.tokens_out + event.tokens.tout,
    cache_write := target.cache_write + event.tokens.cache_write,
    cache_read := target.cache_read + event.tokens.cache_read,
    reported_usd := target.reported_usd + event.cost.reported_usd.getD 0,
    estimated_usd := target.estimated_usd + event.cost.estimated_usd.getD 0,
    final_usd := target.final_usd + event.cost.final_usd.getD 0,
    unknown_cost :=
      if event.cost.mode = CostMode.unknown then target.unknown_cost + 1
      else target.unknown_cost }

/-- Function bucketKey of core/aggregate.ts: a null or empty value falls back
to the sentinel. -/
def bucketKey (value : Option String) (fallback : String) : String :=
  match value with
  | some v => if v.length > 0 then v else fallback
  | none => fallback

/-- Function addBreakdown of core/aggregate.ts.  A JS Record keeps insertion
order: an existing key is updated in place, a fresh key is appended. -/
def addBreakdown : List (String × Totals) → String → UsageEvent → List (String × Totals)
  | [], key, event => [(key, addTotals emptyTotals event)]
  | (k, t) :: rest, key, event =>
    if k = key then (k, addTotals t event) :: rest
    else (k, t) :: addBreakdown rest key event

/-- Breakdown maps of a summary (core/aggregate.ts, SummaryBreakdowns). -/
structure SummaryBreakdowns where
  provider : List (String × Totals)
  source : List (String × Totals)
  model : List (String × Totals)
  project : List (String × Totals)
  deriving DecidableEq, Repr

/-- Aggregation result (core/aggregate.ts, Summary).  The source fields from
and to are renamed fromMs and toMs because from is a Lean keyword; they hold
the window bounds as epoch milliseconds. -/
structure Summary where
  timezone : String
  fromMs : Int
  toMs : Int
  totals : Totals
  breakdowns : SummaryBreakdowns
  deriving DecidableEq, Repr

/-- Project bucket selector: event.project.name, else event.project.id, with
the unassigned sentinel applied by bucketKey. -/
def projectKey (event : UsageEvent) : String :=
  bucketKey
    (match event.project.name with
     | some n => some n
     | none => event.project.id)
    "unassigned"

/-- Loop state of aggregateEvents: the top-level totals and the four
breakdowns, all filled in one pass. -/
structure AggState where
  totals : Totals
  provider : List (String × Totals)
  source : List (String × Totals)
  model : List (String × Totals)
  project : List (String × Totals)
  deriving DecidableEq, Repr

/-- Loop body of aggregateEvents: an event is skipped when its instant is
strictly before the window start or strictly after the window end, and is
otherwise folded into the totals and all four breakdowns. -/
def aggStep (fromMs toMs : Int) (st : AggState) (event : UsageEvent) : AggState :=
  if event.ts < fromMs ∨ toMs < event.ts then st
  else
    { totals := addTotals st.totals event,
      provider := addBreakdown st.provider event.provider event,
      source := addBreakdown st.source event.source event,
      model := addBreakdown st.model (bucketKey event.model "unknown") event,
      project := addBreakdown st.project (projectKey event) event }

/-- Initial aggregation state. -/
def emptyAggState : AggState :=
  { totals := emptyTotals, provider := [], source := [], model := [], project := [] }

/-- Function aggregateEvents of core/aggregate.ts. -/
def aggregateEvents (events : List UsageEvent) (timezone : String) (fromMs toMs : Int) :
    Summary :=
  let st := events.foldl (aggStep fromMs toMs) emptyAggState
  { timezone := timezone, fromMs := fromMs, toMs := toMs, totals := st.totals,
    breakdowns :=
      { provider := st.provider, source := st.source, model := st.model,
        project := st.project } }

/-- Calendar day key of an instant, modelling the luxon toISODate grouping key
of core/storage.ts as the calendar day index (floor division of the epoch
millisecond instant by the length of a day). -/
def dayOf (ts : Int) : Int :=
  ts.fdiv 86400000

/-- Insert one event into the grouped-by-day accumulator, appending to the
bucket of its day or opening a fresh bucket at the end (JS Map keeps insertion
order of first occurrence). -/
def insertGrouped : List (Int × List UsageEvent) → Int → UsageEvent → List (Int × List UsageEvent)
  | [], d, e => [(d, [e])]
  | (d', es) :: rest, d, e =>
    if d' = d then (d', es ++ [e]) :: rest
    else (d', es) :: insertGrouped rest d e

/-- Grouping loop of writeEvents and overwriteEvents in core/storage.ts. -/
def groupByDay (events : List UsageEvent) : List (Int × List UsageEvent) :=
  events.foldl (fun acc e => insertGrouped acc (dayOf e.ts) e) []

/-- Day-partitioned event store: the list of records of each per-day file. -/
def Store : Type :=
  Int → List UsageEvent

/-- Store with every per-day file absent (readJsonl yields an empty list). -/
def emptyStore : Store :=
  fun _ => []

/-- Ids of the lines of a per-day file (the seen set of writeEvents). -/
def storeIds (lines : List UsageEvent) : List String :=
  lines.map (fun e => e.id)

/-- Inner loop of writeEvents for one day: walk the incoming bucket, skip an
event whose id is in the seen set read at loop start, append the rest and
count them.  The seen set is not extended while the loop runs, exactly as in
the source. -/
def writeDayLoop (seen : List String) : List UsageEvent → List UsageEvent × ℕ
  | [] => ([], 0)
  | e :: rest =>
    let (acc, w) := writeDayLoop seen rest
    if seen.contains e.id then (acc, w) else (e :: acc, w + 1)

/-- Per-day body of writeEvents: read the existing file, collect its ids, then
append the events of the bucket whose id is not among them. -/
def writeEventsDay (store : Store) (day : Int) (dayEvents : List UsageEvent) : Store × ℕ :=
  let existing := store day
  let (appended, w) := writeDayLoop (storeIds existing) dayEvents
  (fun d => if d = day then existing ++ appended else store d, w)

/-- Outer loop body of writeEvents: process one grouped day, accumulating the
written count. -/
def writeFoldStep (acc : Store × ℕ) (g : Int × List UsageEvent) : Store × ℕ :=
  let (s, w) := writeEventsDay acc.1 g.1 g.2
  (s, acc.2 + w)

/-- Function writeEvents of core/storage.ts. -/
def writeEvents (events : List UsageEvent) (store : Store) : Store × ℕ :=
  if events.isEmpty then (store, 0)
  else (groupByDay events).foldl writeFoldStep (store, 0)

/-- Four running token totals of a Codex session (src/collectors/codex.ts,
UsageSnapshot). -/
structure UsageSnapshot where
  input : ℚ
  output : ℚ
  cacheWrite : ℚ
  cacheRead : ℚ
  deriving DecidableEq, Repr

/-- All-zero snapshot. -/
def snapZero : UsageSnapshot :=
  { input := 0, output := 0, cacheWrite := 0, cacheRead := 0 }

/-- Componentwise max(newTotal - lastTotal, 0). -/
def snapDeltaMax (total last : UsageSnapshot) : UsageSnapshot :=
  { input := max (total.input - last.input) 0,
    output := max (total.output - last.output) 0,
    cacheWrite := max (total.cacheWrite - last.cacheWrite) 0,
    cacheRead := max (total.cacheRead - last.cacheRead) 0 }

/-- Result of normalizeUsage in src/collectors/codex.ts: a per-record delta
and, when the record carries running totals, the total snapshot. -/
structure CodexUsage where
  delta : UsageSnapshot
  total : Option UsageSnapshot
  deriving DecidableEq, Repr

/-- Loop body of collectCodex for one usage-bearing record: given the
last-seen total of the session, return the new last-seen total and the token
delta emitted as an event, if any.  Mirrors the source order: an unchanged
repeat of the previous total is skipped first; a record with a total and a
previous total emits the clamped difference; an all-zero delta emits
nothing. -/
def codexStep (lastTotal : Option UsageSnapshot) (usage : CodexUsage) :
    Option UsageSnapshot × Option UsageSnapshot :=
  match usage.total, lastTotal with
  | some t, some lt =>
    if t = lt then (lastTotal, none)
    else
      let delta := snapDeltaMax t lt
      if delta = snapZero then (some t, none) else (some t, some delta)
  | some t, none =>
    if usage.delta = snapZero then (some t, none) else (some t, some usage.delta)
  | none, _ =>
    if usage.delta = snapZero then (lastTotal, none) else (lastTotal, some usage.delta)

/-- Per-session run of collectCodex over the usage-bearing records of one
session file, collecting the emitted token deltas in order. -/
def codexRun (records : List CodexUsage) : List UsageSnapshot :=
  (records.foldl
    (fun acc r =>
      let (st, emitted) := codexStep acc.1 r
      (st, match emitted with
           | some d => acc.2 ++ [d]
           | none => acc.2))
    ((none : Option UsageSnapshot), ([] : List UsageSnapshot))).2

/-- Fallback tiers of collectCursor in src/collectors/cursor.ts. -/
inductive CursorTier where
  | dashboard
  | team
  | localState
  | transcripts
  deriving DecidableEq, Repr

/-- Outcome of a network tier: parsed rows plus the skipped flag, which is set
when credentials are missing, the cache is still valid, the upstream answers
304 Not Modified, or the response is an error. -/
structure FetchResult (α : Type) where
  rows : List α
  skipped : Bool
  deriving DecidableEq, Repr

/-- Tier orchestration of collectCursor: tier 1 is the dashboard API, tier 2
the team API (attempted only when the previous fetch produced zero rows and
was not skipped), tier 3 the local state database (same guard against the
latest fetch), and tier 4 transcript estimation (guarded only by zero rows).
Returns the selected rows and the list of tiers invoked. -/
def collectCursorChain {α : Type} (dashboardResult teamResult : FetchResult α)
    (localRows transcriptRows : List α) : List α × List CursorTier :=
  let fetched := dashboardResult
  let rows := fetched.rows
  let invoked := [CursorTier.dashboard]
  let (fetched, rows, invoked) :=
    if rows.isEmpty && !fetched.skipped then
      (teamResult, teamResult.rows, invoked ++ [CursorTier.team])
    else (fetched, rows, invoked)
  let (rows, invoked) :=
    if rows.isEmpty && !fetched.skipped then
      (localRows, invoked ++ [CursorTier.localState])
    else (rows, invoked)
  let (rows, invoked) :=
    if rows.isEmpty then (transcriptRows, invoked ++ [CursorTier.transcripts])
    else (rows, invoked)
  (rows, invoked)

/-- Pricing entry used as a concrete sample: the anthropic sonnet rates of the
test fixtures, without cache rates. -/
def sampleRates : PricingModel :=
  { provider := "anthropic", model := "claude-3-5-sonnet", input_per_million := 3,
    output_per_million := 15, cache_write_per_million := none,
    cache_read_per_million := none }

/-- Sample pricing entry with cache rates 3.75 and 0.30 per million. -/
def sampleRatesCache : PricingModel :=
  { provider := "anthropic", model := "claude-3-5-sonnet", input_per_million := 3,
    output_per_million := 15, cache_write_per_million := some (15 / 4),
    cache_read_per_million := some (3 / 10) }

/-- Pricing table holding only the sample sonnet entry. -/
def tblSonnet : PricingTable :=
  { models := [sampleRates] }

/-- Empty pricing table: no (provider, model) pair resolves. -/
def tblEmpty : PricingTable :=
  { models := [] }

/-- Token sample of the estimation formula: one million input tokens and one
hundred thousand output tokens. -/
def sampleTokens : UsageTokens :=
  { tin := 1000000, tout := 100000, cache_write := 0, cache_read := 0 }

/-- Token sample with cache traffic added. -/
def sampleTokensCache : UsageTokens :=
  { tin := 1000000, tout := 100000, cache_write := 500000, cache_read := 1000000 }

/-- Base concrete event used by witnesses and counterexamples. -/
def baseEvent : UsageEvent :=
  { id := "evt-base", ts := 0, source := "claude_code", provider := "anthropic",
    model := some "claude-3-5-sonnet", tokens := emptyTokens, cost := emptyCost,
    project := emptyProject, meta := { billing := none } }

/-- Event covered by a flat-rate subscription plan. -/
def evSub : UsageEvent :=
  { baseEvent with meta := { billing := some "subscription" } }

/-- Event carrying an upstream reported cost of 0.05 USD and no estimate. -/
def evReported : UsageEvent :=
  { baseEvent with cost := { emptyCost with reported_usd := some (1 / 20) } }

/-- Event whose provider and model resolve to no pricing entry. -/
def evNoPricing : UsageEvent :=
  { baseEvent with model := some "mystery-model" }

/-- C3: estimateCostUsd is the four-component linear formula in which an
absent cache rate contributes zero; on one million input and one hundred
thousand output tokens at rates 3 and 15 USD per million it yields 4.50, and
adding 500000 cache-write and one million cache-read tokens at rates 3.75 and
0.30 yields 6.675. -/
theorem estimateCostUsd_formula :
    (∀ (p : PricingModel) (tokens : UsageTokens),
      estimateCostUsd p tokens =
        tokens.tin / 1000000 * p.input_per_million
          + tokens.tout / 1000000 * p.output_per_million
          + tokens.cache_write / 1000000 * p.cache_write_per_million.getD 0
          + tokens.cache_read / 1000000 * p.cache_read_per_million.getD 0)
    ∧ estimateCostUsd sampleRates sampleTokens = 9 / 2
    ∧ estimateCostUsd sampleRatesCache sampleTokensCache = 267 / 40 := by
  refine ⟨fun p tokens => ?_, ?_, ?_⟩
  · cases hw : p.cache_write_per_million <;> cases hr : p.cache_read_per_million <;>
      simp [estimateCostUsd, hw, hr]
  · norm_num [estimateCostUsd, sampleRates, sampleTokens]
  · norm_num [estimateCostUsd, sampleRatesCache, sampleTokensCache]

/-- C1: applyCosting follows the priority order: a subscription-billed event
gets final cost zero and mode subscription while the computed estimate is
still stored in estimated_usd; otherwise a present reported_usd becomes the
final cost, with mode mixed exactly when an estimate is also present and mode
reported otherwise. -/
theorem applyCosting_priority (e : UsageEvent) (t : PricingTable) (o : CostingOptions) :
    (e.meta.billing = some "subscription" →
      (applyCosting e t o).cost.final_usd = some 0 ∧
      (applyCosting e t o).cost.mode = CostMode.subscription ∧
      ∀ pm, findPricing t e.provider e.model = some pm →
        (applyCosting e t o).cost.estimated_usd = some (estimateCostUsd pm e.tokens))
    ∧ (e.meta.billing ≠ some "subscription" →
      ∀ r, e.cost.reported_usd = some r →
        (applyCosting e t o).cost.final_usd = some r ∧
        (applyCosting e t o).cost.mode =
          (if ((applyCosting e t o).cost.estimated_usd).isSome then CostMode.mixed
           else CostMode.reported)) := by
  constructor
  · intro hbill
    have hb : (e.meta.billing == some "subscription") = true := by simp [hbill]
    refine ⟨?_, ?_, ?_⟩
    · simp [applyCosting, hb]
    · simp [applyCosting, hb]
    · intro pm hpm
      simp [applyCosting, hb, hpm]
  · intro hbill r hrep
    have hb : (e.meta.billing == some "subscription") = false := by
      simp [hbill]
    cases hfp : findPricing t e.provider e.model <;>
      simp [applyCosting, hb, hrep, hfp]

/-- C1 witness: on the concrete subscription event the final cost is zero with
mode subscription and the sonnet estimate is stored, and on the concrete
reported event the reported figure 0.05 becomes final. -/
theorem applyCosting_priority_witness :
    (applyCosting evSub tblSonnet {}).cost.final_usd = some 0 ∧
    (applyCosting evSub tblSonnet {}).cost.mode = CostMode.subscription ∧
    (applyCosting evSub tblSonnet {}).cost.estimated_usd =
      some (estimateCostUsd sampleRates evSub.tokens) ∧
    (applyCosting evReported tblSonnet {}).cost.final_usd = some (1 / 20) := by
  have h1 := (applyCosting_priority evSub tblSonnet {}).1 rfl
  have h2 := (applyCosting_priority evReported tblSonnet {}).2 (by simp [evReported, baseEvent])
  exact ⟨h1.1, h1.2.1, h1.2.2 sampleRates rfl, (h2 (1 / 20) rfl).1⟩

/-- C2 counterexample: for an event with no reported cost, no prior estimate
and no resolvable pricing, applyCosting with includeUnknown enabled returns
mode unknown and a null final_usd, refuting the claim that final_usd is
non-null whenever mode is unknown and unknown-inclusion is enabled. -/
theorem applyCosting_unknown_final_null :
    (applyCosting evNoPricing tblEmpty { includeUnknown := true }).cost.mode =
      CostMode.unknown ∧
    (applyCosting evNoPricing tblEmpty { includeUnknown := true }).cost.final_usd = none := by
  constructor <;> rfl

/-- C2 amended: after applyCosting the final cost is non-null except in mode
unknown, where it equals the incoming estimated_usd under includeUnknown
(null when no estimate existed) and is null otherwise. -/
theorem applyCosting_final_invariant (e : UsageEvent) (t : PricingTable) (o : CostingOptions) :
    ((applyCosting e t o).cost.mode = CostMode.unknown →
      (applyCosting e t o).cost.final_usd =
        (if o.includeUnknown then e.cost.estimated_usd else none))
    ∧ ((applyCosting e t o).cost.mode ≠ CostMode.unknown →
      ∃ q, (applyCosting e t o).cost.final_usd = some q) := by
  by_cases hb : (e.meta.billing == some "subscription") = true
  · constructor
    · intro hmode
      simp [applyCosting, hb] at hmode
    · intro _
      exact ⟨0, by simp [applyCosting, hb]⟩
  · have hb' : (e.meta.billing == some "subscription") = false := by
      simpa using hb
    cases hrep : e.cost.reported_usd with
    | some r =>
      constructor
      · intro hmode
        exfalso
        cases hfp : findPricing t e.provider e.model <;>
          cases hes : (e.cost.estimated_usd).isSome <;>
          simp [applyCosting, hb', hrep, hfp, hes] at hmode
      · intro _
        exact ⟨r, by simp [applyCosting, hb', hrep]⟩
    | none =>
      cases hfp : findPricing t e.provider e.model with
      | none =>
        constructor
        · intro _
          simp [applyCosting, hb', hrep, hfp]
        · intro hmode
          simp [applyCosting, hb', hrep, hfp] at hmode
      | some pm =>
        constructor
        · intro hmode
          simp [applyCosting, hb', hrep, hfp] at hmode
        · intro _
          exact ⟨estimateCostUsd pm e.tokens, by simp [applyCosting, hb', hrep, hfp]⟩

/-- C2 amended witness: with unknown-inclusion disabled the unresolvable event
gets a null final cost, and the reported event gets some final cost. -/
theorem applyCosting_final_invariant_witness :
    (applyCosting evNoPricing tblEmpty {}).cost.final_usd = none ∧
    ∃ q, (applyCosting evReported tblSonnet {}).cost.final_usd = some q := by
  constructor
  · have h := (applyCosting_final_invariant evNoPricing tblEmpty {}).1 rfl
    simpa using h
  · exact (applyCosting_final_invariant evReported tblSonnet {}).2 (by
      have h2 := (applyCosting_priority evReported tblSonnet {}).2
        (by simp [evReported, baseEvent]) (1 / 20) rfl
      rw [h2.2]
      simp [applyCosting, evReported, baseEvent, findPricing, tblSonnet, sampleRates])

/-- C9 counterexample: the variant of applyCosting without the subscription
branch does not compute the estimate before checking reported_usd: on an
event with a reported cost, a null prior estimate and a resolvable pricing
entry, it returns a null estimated_usd and mode reported. -/
theorem applyCostingLegacy_estimate_not_unconditional :
    findPricing tblSonnet evReported.provider evReported.model = some sampleRates ∧
    evReported.cost.reported_usd = some (1 / 20) ∧
    (applyCostingLegacy evReported tblSonnet {}).cost.estimated_usd = none ∧
    (applyCostingLegacy evReported tblSonnet {}).cost.mode = CostMode.reported := by
  refine ⟨rfl, rfl, rfl, rfl⟩

/-- C9 amended: the two applyCosting variants are both present and disagree on
whether estimated_usd is populated alongside a reported cost: on the event
with reported cost 0.05 and resolvable sonnet pricing, the subscription-aware
variant (which computes the estimate unconditionally) returns a populated
estimated_usd with mode mixed, while the variant without the subscription
branch (which checks reported_usd first) leaves estimated_usd null with mode
reported and never assigns mode subscription. -/
theorem applyCosting_variants_diverge :
    (∀ (e : UsageEvent) (t : PricingTable) (o : CostingOptions),
      (applyCostingLegacy e t o).cost.mode ≠ CostMode.subscription)
    ∧ (applyCosting evReported tblSonnet {}).cost.estimated_usd =
        some (estimateCostUsd sampleRates evReported.tokens)
    ∧ (applyCosting evReported tblSonnet {}).cost.mode = CostMode.mixed
    ∧ (applyCostingLegacy evReported tblSonnet {}).cost.estimated_usd = none
    ∧ (applyCostingLegacy evReported tblSonnet {}).cost.mode = CostMode.reported := by
  refine ⟨?_, ?_, ?_, rfl, rfl⟩
  · intro e t o
    cases hrep : e.cost.reported_usd with
    | some r =>
      cases h : (e.cost.estimated_usd).isSome <;>
        simp [applyCostingLegacy, hrep, h]
    | none =>
      cases hfp : findPricing t e.provider e.model <;>
        simp [applyCostingLegacy, hrep, hfp]
  · have hfp : findPricing tblSonnet "anthropic" (some "claude-3-5-sonnet") =
        some sampleRates := rfl
    simp [applyCosting, hfp, evReported, baseEvent]
  · have hfp : findPricing tblSonnet "anthropic" (some "claude-3-5-sonnet") =
        some sampleRates := rfl
    simp [applyCosting, hfp, evReported, baseEvent]

/-- Instant of local midnight 2026-02-02 in America/Los_Angeles (UTC-8), in
epoch milliseconds. -/
def laMidnight : Int := 1770019200000

/-- Instant ten hours after that local midnight. -/
def laNow : Int := 1770055200000

/-- Event thirty minutes before the Los Angeles local midnight. -/
def evBefore : UsageEvent := { baseEvent with ts := 1770017400000 }

/-- Event thirty minutes after the Los Angeles local midnight. -/
def evAfter : UsageEvent := { baseEvent with ts := 1770021000000 }

/-- Event exactly at the window start. -/
def evAtFrom : UsageEvent := { baseEvent with ts := laMidnight }

/-- Event exactly at the window end. -/
def evAtTo : UsageEvent := { baseEvent with ts := laNow }

/-- Count accumulated by the aggregation fold over any starting state: the
events kept are exactly those with fromMs ≤ ts ≤ toMs. -/
theorem aggFold_count (events : List UsageEvent) (fromMs toMs : Int) :
    ∀ st : AggState,
      (events.foldl (aggStep fromMs toMs) st).totals.count =
        st.totals.count +
          (events.filter (fun e => decide (fromMs ≤ e.ts ∧ e.ts ≤ toMs))).length := by
  induction events with
  | nil => intro st; simp
  | cons e rest ih =>
    intro st
    rw [List.foldl_cons, ih]
    by_cases h : e.ts < fromMs ∨ toMs < e.ts
    · have hnot : ¬(fromMs ≤ e.ts ∧ e.ts ≤ toMs) := by omega
      simp [aggStep, h, hnot]
    · have hyes : fromMs ≤ e.ts ∧ e.ts ≤ toMs := by omega
      simp [aggStep, h, hyes, addTotals]
      omega

/-- C4: aggregateEvents keeps exactly the events whose instant lies in the
window, inclusive on both ends; concretely, over the Los Angeles window from
local midnight to now, an event thirty minutes before midnight is excluded,
one thirty minutes after is included, and events exactly at the window start
or end are included. -/
theorem aggregateEvents_window_inclusive :
    (∀ (events : List UsageEvent) (tz : String) (fromMs toMs : Int),
      (aggregateEvents events tz fromMs toMs).totals.count =
        (events.filter (fun e => decide (fromMs ≤ e.ts ∧ e.ts ≤ toMs))).length)
    ∧ (aggregateEvents [evBefore] "America/Los_Angeles" laMidnight laNow).totals.count = 0
    ∧ (aggregateEvents [evAfter] "America/Los_Angeles" laMidnight laNow).totals.count = 1
    ∧ (aggregateEvents [evAtFrom] "America/Los_Angeles" laMidnight laNow).totals.count = 1
    ∧ (aggregateEvents [evAtTo] "America/Los_Angeles" laMidnight laNow).totals.count = 1 := by
  refine ⟨fun events tz fromMs toMs => ?_, rfl, rfl, rfl, rfl⟩
  simpa [aggregateEvents, emptyAggState, emptyTotals] using
    aggFold_count events fromMs toMs emptyAggState

/-- Componentwise sum of two accumulators, the summation language in which
breakdown consistency is stated. -/
def addT (a b : Totals) : Totals :=
  { count := a.count + b.count,
    tokens_in := a.tokens_in + b.tokens_in,
    tokens_out := a.tokens_out + b.tokens_out,
    cache_write := a.cache_write + b.cache_write,
    cache_read := a.cache_read + b.cache_read,
    reported_usd := a.reported_usd + b.reported_usd,
    estimated_usd := a.estimated_usd + b.estimated_usd,
    final_usd := a.final_usd + b.final_usd,
    unknown_cost := a.unknown_cost + b.unknown_cost }

/-- Contribution of a single event to an accumulator. -/
def eventTotals (e : UsageEvent) : Totals :=
  addTotals emptyTotals e

/-- Sum of the accumulators of every bucket of a breakdown. -/
def sumTotals (b : List (String × Totals)) : Totals :=
  b.foldr (fun p acc => addT p.2 acc) emptyTotals

theorem addT_emptyTotals (a : Totals) : addT a emptyTotals = a := by
  ext <;> simp [addT, emptyTotals]

theorem addTotals_eq_addT (t : Totals) (e : UsageEvent) :
    addTotals t e = addT t (eventTotals e) := by
  by_cases hc : e.cost.mode = CostMode.unknown <;>
    ext <;> simp [addTotals, addT, eventTotals, emptyTotals, hc]

theorem addT_right_comm (t x y : Totals) : addT (addT t x) y = addT (addT t y) x := by
  ext <;> simp [addT] <;> ring

theorem addT_addTotals_right (x y : Totals) (e : UsageEvent) :
    addT x (addTotals y e) = addTotals (addT x y) e := by
  by_cases hc : e.cost.mode = CostMode.unknown <;>
    ext <;> simp [addT, addTotals, hc] <;> try ring

theorem sumTotals_addBreakdown (b : List (String × Totals)) (k : String) (e : UsageEvent) :
    sumTotals (addBreakdown b k e) = addTotals (sumTotals b) e := by
  induction b with
  | nil =>
    simp [addBreakdown, sumTotals, addT_emptyTotals]
  | cons p rest ih =>
    obtain ⟨k', t⟩ := p
    by_cases hk : k' = k
    · subst hk
      have hstep : addBreakdown ((k', t) :: rest) k' e = (k', addTotals t e) :: rest := by
        simp [addBreakdown]
      rw [hstep]
      show addT (addTotals t e) (sumTotals rest) = addTotals (addT t (sumTotals rest)) e
      rw [addTotals_eq_addT t e, addTotals_eq_addT (addT t (sumTotals rest)) e]
      exact addT_right_comm t (eventTotals e) (sumTotals rest)
    · have hstep : addBreakdown ((k', t) :: rest) k e = (k', t) :: addBreakdown rest k e := by
        simp [addBreakdown, hk]
      rw [hstep]
      show addT t (sumTotals (addBreakdown rest k e)) = addTotals (addT t (sumTotals rest)) e
      rw [ih, addT_addTotals_right]

/-- Invariant of the single aggregation pass: whenever each breakdown sums to
the running totals, the property is preserved by folding any batch of
events. -/
theorem aggFold_breakdown (events : List UsageEvent) (fromMs toMs : Int) :
    ∀ st : AggState,
      sumTotals st.provider = st.totals →
      sumTotals st.source = st.totals →
      sumTotals st.model = st.totals →
      sumTotals st.project = st.totals →
      sumTotals (events.foldl (aggStep fromMs toMs) st).provider =
          (events.foldl (aggStep fromMs toMs) st).totals ∧
        sumTotals (events.foldl (aggStep fromMs toMs) st).source =
          (events.foldl (aggStep fromMs toMs) st).totals ∧
        sumTotals (events.foldl (aggStep fromMs toMs) st).model =
          (events.foldl (aggStep fromMs toMs) st).totals ∧
        sumTotals (events.foldl (aggStep fromMs toMs) st).project =
          (events.foldl (aggStep fromMs toMs) st).totals := by
  induction events with
  | nil => intro st h1 h2 h3 h4; exact ⟨h1, h2, h3, h4⟩
  | cons e rest ih =>
    intro st h1 h2 h3 h4
    rw [List.foldl_cons]
    by_cases h : e.ts < fromMs ∨ toMs < e.ts
    · have hst : aggStep fromMs toMs st e = st := by simp [aggStep, h]
      rw [hst]
      exact ih st h1 h2 h3 h4
    · have hst : aggStep fromMs toMs st e =
          { totals := addTotals st.totals e,
            provider := addBreakdown st.provider e.provider e,
            source := addBreakdown st.source e.source e,
            model := addBreakdown st.model (bucketKey e.model "unknown") e,
            project := addBreakdown st.project (projectKey e) e } := by
        simp [aggStep, h]
      rw [hst]
      exact ih _ (by simp [sumTotals_addBreakdown, h1])
        (by simp [sumTotals_addBreakdown, h2])
        (by simp [sumTotals_addBreakdown, h3])
        (by simp [sumTotals_addBreakdown, h4])

/-- C5: in any summary produced by aggregateEvents, the bucket accumulators of
each single breakdown dimension sum componentwise (count, the four token
sums, the three USD sums and the unknown count, in particular final_usd) to
the top-level totals. -/
theorem aggregateEvents_breakdown_sums (events : List UsageEvent) (tz : String)
    (fromMs toMs : Int) :
    sumTotals (aggregateEvents events tz fromMs toMs).breakdowns.provider =
        (aggregateEvents events tz fromMs toMs).totals ∧
      sumTotals (aggregateEvents events tz fromMs toMs).breakdowns.source =
        (aggregateEvents events tz fromMs toMs).totals ∧
      sumTotals (aggregateEvents events tz fromMs toMs).breakdowns.model =
        (aggregateEvents events tz fromMs toMs).totals ∧
      sumTotals (aggregateEvents events tz fromMs toMs).breakdowns.project =
        (aggregateEvents events tz fromMs toMs).totals := by
  have h := aggFold_breakdown events fromMs toMs emptyAggState
    (by simp [sumTotals, emptyAggState]) (by simp [sumTotals, emptyAggState])
    (by simp [sumTotals, emptyAggState]) (by simp [sumTotals, emptyAggState])
  simpa [aggregateEvents] using h

/-- Day keys of a grouped list, in insertion order. -/
def daysOf (gs : List (Int × List UsageEvent)) : List Int :=
  gs.map Prod.fst

/-- Bucket stored under a day key, empty when the key is absent. -/
def lookupBucket : List (Int × List UsageEvent) → Int → List UsageEvent
  | [], _ => []
  | (d', es) :: rest, d => if d' = d then es else lookupBucket rest d

theorem insertGrouped_lookup (d0 : Int) (e : UsageEvent) :
    ∀ (acc : List (Int × List UsageEvent)) (d : Int),
      lookupBucket (insertGrouped acc d0 e) d =
        if d = d0 then lookupBucket acc d ++ [e] else lookupBucket acc d := by
  intro acc
  induction acc with
  | nil =>
    intro d
    by_cases h : d = d0
    · subst h
      simp [insertGrouped, lookupBucket]
    · simp [insertGrouped, lookupBucket, h, Ne.symm h]
  | cons p rest ih =>
    obtain ⟨d', es⟩ := p
    intro d
    by_cases h1 : d' = d0
    · subst h1
      by_cases h2 : d = d'
      · subst h2
        simp [insertGrouped, lookupBucket]
      · simp [insertGrouped, lookupBucket, h2, Ne.symm h2]
    · by_cases h2 : d' = d
      · subst h2
        simp [insertGrouped, lookupBucket, h1]
      · simp [insertGrouped, lookupBucket, h1, h2, ih]

theorem groupFold_lookup (events : List UsageEvent) :
    ∀ (acc : List (Int × List UsageEvent)) (d : Int),
      lookupBucket (events.foldl (fun a e => insertGrouped a (dayOf e.ts) e) acc) d =
        lookupBucket acc d ++ events.filter (fun e => decide (dayOf e.ts = d)) := by
  induction events with
  | nil =>
    intro acc d
    simp
  | cons e rest ih =>
    intro acc d
    rw [List.foldl_cons, ih, insertGrouped_lookup]
    by_cases h : dayOf e.ts = d
    · subst h
      simp [List.filter_cons]
    · simp [List.filter_cons, h, Ne.symm h]

theorem groupByDay_lookup (events : List UsageEvent) (d : Int) :
    lookupBucket (groupByDay events) d =
      events.filter (fun e => decide (dayOf e.ts = d)) := by
  have h := groupFold_lookup events [] d
  simpa [groupByDay, lookupBucket] using h

theorem insertGrouped_days (acc : List (Int × List UsageEvent)) (d0 : Int) (e : UsageEvent) :
    daysOf (insertGrouped acc d0 e) =
      if d0 ∈ daysOf acc then daysOf acc else daysOf acc ++ [d0] := by
  induction acc with
  | nil =>
    simp [insertGrouped, daysOf]
  | cons p rest ih =>
    obtain ⟨d', es⟩ := p
    by_cases h : d' = d0
    · subst h
      simp [insertGrouped, daysOf]
    · have hstep : insertGrouped ((d', es) :: rest) d0 e =
          (d', es) :: insertGrouped rest d0 e := by
        simp [insertGrouped, h]
      have hmem : (d0 ∈ daysOf ((d', es) :: rest)) ↔ d0 ∈ daysOf rest := by
        simp [daysOf, Ne.symm h]
      have hcons : ∀ gs, daysOf ((d', es) :: gs) = d' :: daysOf gs := fun gs => rfl
      rw [hstep, hcons, ih]
      by_cases h2 : d0 ∈ daysOf rest
      · rw [if_pos h2, if_pos (hmem.mpr h2), hcons]
      · rw [if_neg h2, if_neg (fun hh => h2 (hmem.mp hh)), hcons]
        simp

theorem insertGrouped_mem_days (acc : List (Int × List UsageEvent)) (d0 d : Int)
    (e : UsageEvent) :
    d ∈ daysOf (insertGrouped acc d0 e) ↔ d ∈ daysOf acc ∨ d = d0 := by
  rw [insertGrouped_days]
  by_cases h : d0 ∈ daysOf acc
  · simp only [h, if_true]
    constructor
    · exact Or.inl
    · rintro (hd | rfl)
      · exact hd
      · exact h
  · simp [h]

theorem groupFold_days_nodup (events : List UsageEvent) :
    ∀ acc : List (Int × List UsageEvent),
      (daysOf acc).Nodup →
      (daysOf (events.foldl (fun a e => insertGrouped a (dayOf e.ts) e) acc)).Nodup := by
  induction events with
  | nil =>
    intro acc h
    simpa using h
  | cons e rest ih =>
    intro acc h
    rw [List.foldl_cons]
    apply ih
    rw [insertGrouped_days]
    by_cases h2 : dayOf e.ts ∈ daysOf acc
    · simpa [h2] using h
    · simp only [h2, if_false]
      rw [List.nodup_append]
      refine ⟨h, List.nodup_singleton _, ?_⟩
      intro a ha hmem
      rw [List.mem_singleton] at hmem
      exact h2 (hmem ▸ ha)

theorem groupByDay_days_nodup (events : List UsageEvent) :
    (daysOf (groupByDay events)).Nodup :=
  groupFold_days_nodup events [] (by simp [daysOf])

theorem groupFold_mem_days (events : List UsageEvent) :
    ∀ (acc : List (Int × List UsageEvent)) (d : Int),
      d ∈ daysOf (events.foldl (fun a e => insertGrouped a (dayOf e.ts) e) acc) ↔
        d ∈ daysOf acc ∨ ∃ e ∈ events, dayOf e.ts = d := by
  induction events with
  | nil =>
    intro acc d
    simp
  | cons e rest ih =>
    intro acc d
    rw [List.foldl_cons, ih, insertGrouped_mem_days]
    constructor
    · rintro ((hd | rfl) | ⟨e', he', rfl⟩)
      · exact Or.inl hd
      · exact Or.inr ⟨e, List.mem_cons_self e rest, rfl⟩
      · exact Or.inr ⟨e', List.mem_cons_of_mem e he', rfl⟩
    · rintro (hd | ⟨e', he', rfl⟩)
      · exact Or.inl (Or.inl hd)
      · rcases List.mem_cons.mp he' with rfl | he''
        · exact Or.inl (Or.inr rfl)
        · exact Or.inr ⟨e', he'', rfl⟩

theorem groupByDay_mem_days (events : List UsageEvent) (d : Int) :
    d ∈ daysOf (groupByDay events) ↔ ∃ e ∈ events, dayOf e.ts = d := by
  have h := groupFold_mem_days events [] d
  simpa [groupByDay, daysOf] using h

theorem writeDayLoop_eq (seen : List String) (l : List UsageEvent) :
    writeDayLoop seen l =
      (l.filter (fun e => !(seen.contains e.id)),
        (l.filter (fun e => !(seen.contains e.id))).length) := by
  induction l with
  | nil => rfl
  | cons e rest ih =>
    by_cases h : e.id ∈ seen <;>
      simp [writeDayLoop, ih, List.filter_cons, h]

theorem writeFold_store (gs : List (Int × List UsageEvent)) :
    ∀ (store : Store) (w : ℕ) (d : Int),
      (daysOf gs).Nodup →
      ((gs.foldl writeFoldStep (store, w)).1) d =
        (if d ∈ daysOf gs then
          store d ++ (lookupBucket gs d).filter
            (fun e => !((storeIds (store d)).contains e.id))
        else store d) := by
  induction gs with
  | nil =>
    intro store w d _
    simp [daysOf]
  | cons g rest ih =>
    obtain ⟨d1, b1⟩ := g
    intro store w d hnd
    have hnds : (d1 :: daysOf rest).Nodup := by simpa [daysOf] using hnd
    have hnd' : (daysOf rest).Nodup := (List.nodup_cons.mp hnds).2
    have hd1 : d1 ∉ daysOf rest := (List.nodup_cons.mp hnds).1
    rw [List.foldl_cons]
    have hstep : writeFoldStep (store, w) (d1, b1) =
        ((fun dd =>
            if dd = d1 then
              store d1 ++ b1.filter (fun e => !((storeIds (store d1)).contains e.id))
            else store dd),
          w + (b1.filter (fun e => !((storeIds (store d1)).contains e.id))).length) := by
      simp [writeFoldStep, writeEventsDay, writeDayLoop_eq]
    rw [hstep, ih _ _ d hnd']
    by_cases hdd : d = d1
    · subst hdd
      rw [if_neg hd1, if_pos (show d ∈ daysOf ((d, b1) :: rest) by simp [daysOf])]
      have hlb : lookupBucket ((d, b1) :: rest) d = b1 := by
        simp [lookupBucket]
      rw [hlb]
      simp
    · have hmem : d ∈ daysOf ((d1, b1) :: rest) ↔ d ∈ daysOf rest := by
        simp [daysOf, hdd]
      have hlb : lookupBucket ((d1, b1) :: rest) d = lookupBucket rest d := by
        simp [lookupBucket, Ne.symm hdd]
      by_cases hdr : d ∈ daysOf rest
      · rw [if_pos hdr, if_pos (hmem.mpr hdr), hlb]
        simp [hdd]
      · rw [if_neg hdr, if_neg (fun hh => hdr (hmem.mp hh))]
        simp [hdd]

theorem writeEvents_store (events : List UsageEvent) (store : Store) (d : Int) :
    (writeEvents events store).1 d =
      (if d ∈ daysOf (groupByDay events) then
        store d ++ (lookupBucket (groupByDay events) d).filter
          (fun e => !((storeIds (store d)).contains e.id))
      else store d) := by
  by_cases h : events.isEmpty
  · have he : events = [] := by
      cases events with
      | nil => rfl
      | cons a l => simp at h
    subst he
    simp [writeEvents, groupByDay, daysOf]
  · have h' : events.isEmpty = false := by simpa using h
    rw [writeEvents, h']
    simp only [Bool.false_eq_true, if_false]
    exact writeFold_store (groupByDay events) store 0 d (groupByDay_days_nodup events)

/-- Event used to exhibit the write path on a batch holding the same id
twice. -/
def evDup : UsageEvent := { baseEvent with id := "dup-event" }

/-- C6 counterexample: writing the batch that contains the same event twice
into the empty store (and writing it again, as the claim states) leaves a
day file with two identical lines carrying the same id, refuting the no
duplicate ids and no duplicate lines part of the claim. -/
theorem writeEvents_twice_duplicate_lines :
    ((writeEvents [evDup, evDup]
        ((writeEvents [evDup, evDup] emptyStore).1)).1 (dayOf evDup.ts)).map (fun e => e.id) =
      ["dup-event", "dup-event"] ∧
    ¬ (((writeEvents [evDup, evDup]
        ((writeEvents [evDup, evDup] emptyStore).1)).1 (dayOf evDup.ts)).map
          (fun e => e.id)).Nodup := by
  constructor
  · rfl
  · intro h
    have h2 : (["dup-event", "dup-event"] : List String).Nodup := by
      exact (by rfl : ((writeEvents [evDup, evDup]
        ((writeEvents [evDup, evDup] emptyStore).1)).1 (dayOf evDup.ts)).map
          (fun e => e.id) = ["dup-event", "dup-event"]) ▸ h
    simp at h2

/-- C6 amended: writeEvents groups by the calendar day of each event and
appends, per day, the events whose id was absent from that day file when the
call started; calling it twice with the same list leaves exactly the store of
the single call, and when the incoming ids are pairwise distinct and every
stored day file has pairwise distinct ids, the resulting store has no
duplicate ids (hence no duplicate lines) in any day file. -/
theorem writeEvents_idempotent_nodup (events : List UsageEvent) (store : Store) :
    (writeEvents events (writeEvents events store).1).1 = (writeEvents events store).1
    ∧ ((events.map (fun e => e.id)).Nodup →
        (∀ d, ((store d).map (fun e => e.id)).Nodup) →
        ∀ d, (((writeEvents events store).1 d).map (fun e => e.id)).Nodup) := by
  constructor
  · funext d
    rw [writeEvents_store events _ d, writeEvents_store events store d]
    by_cases hd : d ∈ daysOf (groupByDay events)
    · rw [if_pos hd, if_pos hd]
      have hnil :
          (lookupBucket (groupByDay events) d).filter
            (fun e =>
              !((storeIds (store d ++ (lookupBucket (groupByDay events) d).filter
                  (fun e => !((storeIds (store d)).contains e.id)))).contains e.id)) = [] := by
        rw [List.filter_eq_nil_iff]
        intro a ha
        simp only [storeIds, List.map_append, Bool.not_eq_true', Bool.not_eq_false,
          List.elem_eq_mem, decide_eq_true_eq, List.mem_append]
        by_cases hc : a.id ∈ (store d).map (fun e => e.id)
        · exact Or.inl hc
        · refine Or.inr (List.mem_map.mpr ⟨a, ?_, rfl⟩)
          rw [List.mem_filter]
          refine ⟨ha, ?_⟩
          simp [storeIds, hc]
      rw [hnil, List.append_nil]
    · rw [if_neg hd, if_neg hd]
  · intro hids hstore d
    rw [writeEvents_store events store d]
    by_cases hd : d ∈ daysOf (groupByDay events)
    · rw [if_pos hd, List.map_append, List.nodup_append]
      refine ⟨hstore d, ?_, ?_⟩
      · have hsub : List.Sublist
            ((lookupBucket (groupByDay events) d).filter
              (fun e => !((storeIds (store d)).contains e.id)))
            events := by
          refine (List.filter_sublist _).trans ?_
          rw [groupByDay_lookup]
          exact List.filter_sublist _
        exact List.Nodup.sublist (hsub.map (fun e => e.id)) hids
      · intro a haE haF
        obtain ⟨e, heF, rfl⟩ := List.mem_map.mp haF
        have hpred := (List.mem_filter.mp heF).2
        have hninE : e.id ∉ storeIds (store d) := by
          simpa using hpred
        exact hninE (by simpa [storeIds] using haE)
    · rw [if_neg hd]
      exact hstore d

/-- Distinct-id sample event a. -/
def evA : UsageEvent := { baseEvent with id := "ev-a" }

/-- Distinct-id sample event b. -/
def evB : UsageEvent := { baseEvent with id := "ev-b" }

/-- C6 amended witness: on the two-event distinct-id batch over the empty
store, a second call reproduces the store of the first call and the stored
day file has pairwise distinct ids. -/
theorem writeEvents_idempotent_nodup_witness :
    (writeEvents [evA, evB] (writeEvents [evA, evB] emptyStore).1).1 =
      (writeEvents [evA, evB] emptyStore).1 ∧
    (((writeEvents [evA, evB] emptyStore).1 0).map (fun e => e.id)).Nodup := by
  have h := writeEvents_idempotent_nodup [evA, evB] emptyStore
  refine ⟨h.1, h.2 ?_ ?_ 0⟩
  · decide
  · intro d
    simp [emptyStore]

/-- C10: within one writeEvents call the seen set is not extended, so a batch
holding two events with the same id on the same day, with that id not yet
stored, appends both events and counts both in the returned written count. -/
theorem writeEvents_batch_not_deduped (e1 e2 : UsageEvent) (store : Store)
    (hday : dayOf e2.ts = dayOf e1.ts) (hid : e2.id = e1.id)
    (hnew : (storeIds (store (dayOf e1.ts))).contains e1.id = false) :
    (writeEvents [e1, e2] store).2 = 2 ∧
    (writeEvents [e1, e2] store).1 (dayOf e1.ts) = store (dayOf e1.ts) ++ [e1, e2] := by
  have hg : groupByDay [e1, e2] = [(dayOf e1.ts, [e1, e2])] := by
    simp [groupByDay, insertGrouped, hday]
  have hw : writeEvents [e1, e2] store = writeFoldStep (store, 0) (dayOf e1.ts, [e1, e2]) := by
    rw [writeEvents]
    simp [hg]
  rw [hw]
  have hloop : writeDayLoop (storeIds (store (dayOf e1.ts))) [e1, e2] = ([e1, e2], 2) := by
    rw [writeDayLoop_eq]
    have h1 : (storeIds (store (dayOf e1.ts))).contains e1.id = false := hnew
    have h2 : (storeIds (store (dayOf e1.ts))).contains e2.id = false := by
      rw [hid]
      exact hnew
    have h1' : e1.id ∉ storeIds (store (dayOf e1.ts)) := by simpa using h1
    have h2' : e2.id ∉ storeIds (store (dayOf e1.ts)) := by simpa using h2
    simp [List.filter_cons, h1', h2']
  constructor
  · simp [writeFoldStep, writeEventsDay, hloop]
  · simp [writeFoldStep, writeEventsDay, hloop]

/-- C10 witness: the concrete duplicate batch on the empty store appends both
copies and reports two written events. -/
theorem writeEvents_batch_not_deduped_witness :
    (writeEvents [evDup, evDup] emptyStore).2 = 2 ∧
    (writeEvents [evDup, evDup] emptyStore).1 (dayOf evDup.ts) =
      emptyStore (dayOf evDup.ts) ++ [evDup, evDup] :=
  writeEvents_batch_not_deduped evDup evDup emptyStore rfl rfl rfl

/-- C7: for a usage record carrying a running total, when a last-seen total
exists the collector stores the new total as the last-seen total and emits
the componentwise max(newTotal - lastTotal, 0) delta, emitting nothing when
that delta is all zero, in particular on an unchanged repeat of the previous
total. -/
theorem codexStep_running_totals (last t : UsageSnapshot) (usage : CodexUsage)
    (h : usage.total = some t) :
    codexStep (some last) usage =
      (some t,
        if snapDeltaMax t last = snapZero then none
        else some (snapDeltaMax t last)) := by
  unfold codexStep
  rw [h]
  by_cases he : t = last
  · subst he
    have hz : snapDeltaMax t t = snapZero := by
      simp [snapDeltaMax, snapZero]
    simp [hz]
  · by_cases hz : snapDeltaMax t last = snapZero <;> simp [he, hz]

/-- Running total observed first in the witness session. -/
def snapLast : UsageSnapshot := { input := 100, output := 50, cacheWrite := 0, cacheRead := 10 }

/-- Running total observed next in the witness session. -/
def snapNew : UsageSnapshot := { input := 150, output := 80, cacheWrite := 0, cacheRead := 10 }

/-- Expected emitted delta between the two witness totals. -/
def snapDelta : UsageSnapshot := { input := 50, output := 30, cacheWrite := 0, cacheRead := 0 }

/-- C7 witness: stepping from total (100, 50, 0, 10) to (150, 80, 0, 10)
stores the new total and emits the delta (50, 30, 0, 0). -/
theorem codexStep_running_totals_witness :
    codexStep (some snapLast)
      { delta := { input := 5, output := 5, cacheWrite := 0, cacheRead := 0 },
        total := some snapNew } =
      (some snapNew, some snapDelta) := by
  have h := codexStep_running_totals snapLast snapNew
    { delta := { input := 5, output := 5, cacheWrite := 0, cacheRead := 0 },
      total := some snapNew } rfl
  rw [h]
  have h1 : snapDeltaMax snapNew snapLast = snapDelta := by
    norm_num [snapDeltaMax, snapLast, snapNew, snapDelta, max_def]
  have h2 : ¬ (snapDelta = snapZero) := by
    norm_num [snapDelta, snapZero]
  rw [h1, if_neg h2]

/-- C8 counterexample: when tier 1 is skipped with a valid cache (or an
unchanged response), the orchestration still invokes tier 4, transcript
estimation, refuting the claim that tiers 2 - 4 are never invoked. -/
theorem collectCursorChain_skip_still_estimates :
    (FetchResult.skipped (⟨[], true⟩ : FetchResult ℕ) = true) ∧
    CursorTier.transcripts ∈
      (@collectCursorChain ℕ ⟨[], true⟩ ⟨[7], false⟩ [8] [9]).2 ∧
    (@collectCursorChain ℕ ⟨[], true⟩ ⟨[7], false⟩ [8] [9]).1 = [9] := by
  refine ⟨rfl, ?_, rfl⟩
  decide

/-- C8 amended: for every run, tier 2 is attempted exactly when tier 1
returned an empty, non-skipped result, tier 3 exactly when both tier 1 and
tier 2 returned empty, non-skipped results, and tier 4 (transcript
estimation) is guarded only by zero rows, so it is attempted exactly when no
rows were produced by tiers 1 - 3, including when tier 1 was skipped with a
valid cache or an unchanged response; in that skipped case tiers 2 and 3 stay
silent while tier 4 still runs and supplies the rows. -/
theorem collectCursorChain_tier_guards {α : Type} (t1 t2 : FetchResult α)
    (l3 l4 : List α) :
    (CursorTier.team ∈ (collectCursorChain t1 t2 l3 l4).2 ↔
      (t1.rows = [] ∧ t1.skipped = false))
    ∧ (CursorTier.localState ∈ (collectCursorChain t1 t2 l3 l4).2 ↔
      (t1.rows = [] ∧ t1.skipped = false ∧ t2.rows = [] ∧ t2.skipped = false))
    ∧ (CursorTier.transcripts ∈ (collectCursorChain t1 t2 l3 l4).2 ↔
      ((t1.rows = [] ∧ t1.skipped = true)
        ∨ (t1.rows = [] ∧ t1.skipped = false ∧ t2.rows = [] ∧ t2.skipped = true)
        ∨ (t1.rows = [] ∧ t1.skipped = false ∧ t2.rows = [] ∧ t2.skipped = false
            ∧ l3 = [])))
    ∧ (t1.skipped = true → t1.rows = [] →
      CursorTier.team ∉ (collectCursorChain t1 t2 l3 l4).2
      ∧ CursorTier.localState ∉ (collectCursorChain t1 t2 l3 l4).2
      ∧ CursorTier.transcripts ∈ (collectCursorChain t1 t2 l3 l4).2
      ∧ (collectCursorChain t1 t2 l3 l4).1 = l4) := by
  obtain ⟨r1, s1⟩ := t1
  obtain ⟨r2, s2⟩ := t2
  cases r1 <;> cases s1 <;> cases r2 <;> cases s2 <;>
    (try cases l3) <;> (try cases l4) <;> simp [collectCursorChain]

/-- C8 amended witness: with tier 1 skipped and empty, tiers 2 and 3 stay
silent while tier 4 supplies the rows. -/
theorem collectCursorChain_tier_guards_witness :
    CursorTier.team ∉ (@collectCursorChain ℕ ⟨[], true⟩ ⟨[7], false⟩ [8] [9]).2 ∧
    CursorTier.localState ∉ (@collectCursorChain ℕ ⟨[], true⟩ ⟨[7], false⟩ [8] [9]).2 ∧
    CursorTier.transcripts ∈ (@collectCursorChain ℕ ⟨[], true⟩ ⟨[7], false⟩ [8] [9]).2 := by
  have h := collectCursorChain_tier_guards (⟨[], true⟩ : FetchResult ℕ) ⟨[7], false⟩ [8] [9]
  exact ⟨(h.2.2.2 rfl rfl).1, (h.2.2.2 rfl rfl).2.1, (h.2.2.2 rfl rfl).2.2.1⟩

